import Mathlib

set_option maxRecDepth 100000

/-!
Verification of the ICO container encoder of `emojico` (`src/index.ts`).

Buffers are modelled as `List Nat`, one entry per byte. Multi-byte
little-endian `Buffer` writes (`writeUInt16LE`, `writeUInt32LE`,
`writeInt32LE` on the nonnegative values used here) are modelled by
emitting the little-endian bytes of the value; theorems about those
fields carry the representability hypotheses the wire fields
presuppose. The single-byte write `Buffer.writeUInt8` validates its
argument and throws `ERR_OUT_OF_RANGE` for values above 255, so
`createIcoDirectory` and everything built on it are `Option`-valued:
`none` models the throw, and the success-path bytes are the total
`icoDirEntryBytes`/`dirLayout`/`icoLayout` layer. `Buffer.alloc n` is a
list of `n` zero bytes.
-/

/-- A decoded raster image as produced by `parsePng`: width, height,
bytes per pixel (4 for RGBA) and the raw top-down row-major pixel bytes. -/
structure DecodedImage where
  width : Nat
  height : Nat
  bpp : Nat
  data : List Nat
deriving DecidableEq

/-- Little-endian bytes of a 16-bit store (`Buffer.writeUInt16LE`). -/
def u16le (v : Nat) : List Nat := [v % 256, v / 256 % 256]

/-- Little-endian bytes of a 32-bit store (`Buffer.writeUInt32LE`;
`writeInt32LE` agrees on the nonnegative values written here). -/
def u32le (v : Nat) : List Nat :=
  [v % 256, v / 256 % 256, v / 65536 % 256, v / 16777216 % 256]

/-- Read one byte at `pos` (`Buffer.readUInt8`); 0 outside the buffer. -/
def readU8 (b : List Nat) (pos : Nat) : Nat := b.getD pos 0

/-- Recombine two little-endian bytes (`Buffer.readUInt16LE`). -/
def readU16LE (b : List Nat) (pos : Nat) : Nat :=
  b.getD pos 0 + 256 * b.getD (pos + 1) 0

/-- Recombine four little-endian bytes (`Buffer.readUInt32LE`). -/
def readU32LE (b : List Nat) (pos : Nat) : Nat :=
  b.getD pos 0 + 256 * b.getD (pos + 1) 0 + 65536 * b.getD (pos + 2) 0 +
    16777216 * b.getD (pos + 3) 0

/-- `createIcoHeader` from `src/index.ts`: 6-byte ICO file header,
reserved = 0, type = 1, image count. -/
def createIcoHeader (count : Nat) : List Nat :=
  u16le 0 ++ u16le 1 ++ u16le count

/-- The 16 bytes of a directory entry on the success path of
`createIcoDirectory`, with the "256 is written as 0" rule applied to
the width and height bytes. -/
def icoDirEntryBytes (width height bpp size offset : Nat) : List Nat :=
  [if width = 256 then 0 else width,
   if height = 256 then 0 else height,
   0, 0] ++ u16le 1 ++ u16le (bpp * 8) ++ u32le size ++ u32le offset

/-- `createIcoDirectory` from `src/index.ts`: 16-byte directory entry.
The width and height bytes are `Buffer.writeUInt8` stores with the
"256 is written as 0" rule; `writeUInt8` throws `ERR_OUT_OF_RANGE`
when the value exceeds 255, modelled as `none`. -/
def createIcoDirectory (width height bpp size offset : Nat) :
    Option (List Nat) :=
  if (if width = 256 then 0 else width) ≤ 255 ∧
      (if height = 256 then 0 else height) ≤ 255 then
    some (icoDirEntryBytes width height bpp size offset)
  else none

/-- `createBitmapInfoHeader` from `src/index.ts`: 40-byte
BITMAPINFOHEADER with the height field doubled for the ICO format. -/
def createBitmapInfoHeader (width height bpp dataSize : Nat) : List Nat :=
  u32le 40 ++ u32le width ++ u32le (height * 2) ++ u16le 1 ++
    u16le (bpp * 8) ++ u32le 0 ++ u32le dataSize ++ u32le 0 ++ u32le 0 ++
    u32le 0 ++ u32le 0

/-- One iteration of the inner loop body of `convertRgbaToBgr`: read the
four channel bytes at `srcPos` and store them at `dstPos` with the red
and blue channels swapped (B,G,R,A). -/
def writePixel (src : List Nat) (srcPos dstPos : Nat) (buf : List Nat) :
    List Nat :=
  let r := src.getD srcPos 0
  let g := src.getD (srcPos + 1) 0
  let b := src.getD (srcPos + 2) 0
  let a := src.getD (srcPos + 3) 0
  ((((buf.set dstPos b).set (dstPos + 1) g).set (dstPos + 2) r).set
    (dstPos + 3) a)

/-- The inner loop of `convertRgbaToBgr` over one source row:
`for (col = 0; col < cols; col += bpp)`, reindexed by the pixel column
`c` (`col = c * bpp`; the loop runs `width` times when it runs at all). -/
def convertRow (src : List Nat) (bpp row endPos : Nat) :
    Nat → List Nat → List Nat
  | 0, buf => buf
  | c + 1, buf =>
      writePixel src (row + c * bpp) (endPos - row + c * bpp)
        (convertRow src bpp row endPos c buf)

/-- The outer loop of `convertRgbaToBgr`:
`for (row = 0; row < rows; row += cols)`, reindexed by the row number
`rr` (`row = rr * cols`; since `rows = height * cols` the loop runs
`height` times when `cols ≠ 0` and zero times otherwise). -/
def convertRows (src : List Nat) (width bpp cols endPos : Nat) :
    Nat → List Nat → List Nat
  | 0, buf => buf
  | rr + 1, buf =>
      convertRow src bpp (rr * cols) endPos width
        (convertRows src width bpp cols endPos rr buf)

/-- `convertRgbaToBgr` from `src/index.ts`: flip the image vertically and
swap the R and B channel of every pixel, writing into a fresh zero
buffer of the same length. -/
def convertRgbaToBgr (rgbaData : List Nat) (width height bpp : Nat) :
    List Nat :=
  let cols := width * bpp
  let rows := height * cols
  let endPos := rows - cols
  let nrows := if cols = 0 then 0 else height
  convertRows rgbaData width bpp cols endPos nrows
    (List.replicate rgbaData.length 0)

/-- The success-path bytes of the directory-building loop of
`generateIco`: one 16-byte entry per image, with
`size = 40 + data.length` and a running `offset` advanced by the size
of each emitted image block. -/
def dirLayout : List DecodedImage → Nat → List (List Nat)
  | [], _ => []
  | img :: rest, offset =>
      icoDirEntryBytes img.width img.height img.bpp
          (40 + img.data.length) offset ::
        dirLayout rest (offset + (40 + img.data.length))

/-- The directory-building loop of `generateIco` (the first `for` loop):
each iteration calls `createIcoDirectory` and advances the offset
cursor; a throw in any iteration aborts the whole encode (`none`). -/
def icoDirectories : List DecodedImage → Nat → Option (List (List Nat))
  | [], _ => some []
  | img :: rest, offset => do
      let dir ← createIcoDirectory img.width img.height img.bpp
        (40 + img.data.length) offset
      let dirs ← icoDirectories rest (offset + (40 + img.data.length))
      some (dir :: dirs)

/-- One image block of `icoLayout`: the 40-byte bitmap header followed
by the converted pixel data. -/
def icoImageBlock (img : DecodedImage) : List Nat :=
  createBitmapInfoHeader img.width img.height img.bpp img.data.length ++
    convertRgbaToBgr img.data img.width img.height img.bpp

/-- The container bytes produced on the success path of `generateIco`:
header, then the directory entries starting at offset `6 + 16 * N`,
then the image blocks, all concatenated. -/
def icoLayout (images : List DecodedImage) : List Nat :=
  createIcoHeader images.length ++
    (dirLayout images (6 + 16 * images.length)).flatten ++
    (images.map icoImageBlock).flatten

/-- `generateIco` from `src/index.ts`, over already-decoded images
(`parsePng`, an external PNG codec, is out of scope): header, then the
directory entries starting at offset `6 + 16 * N`, then the image
blocks, all concatenated; `none` when a directory entry's single-byte
store throws. -/
def generateIco (images : List DecodedImage) : Option (List Nat) := do
  let dirs ← icoDirectories images (6 + 16 * images.length)
  some (createIcoHeader images.length ++ dirs.flatten ++
    (images.map icoImageBlock).flatten)

/-- The bytes of a successful encode (`[]` when the encoder throws). -/
def icoOutput (images : List DecodedImage) : List Nat :=
  (generateIco images).getD []

/-- Both single-byte dimension stores of an image's directory entry are
in range for `Buffer.writeUInt8`. -/
def imageDimsOk (img : DecodedImage) : Prop :=
  (if img.width = 256 then 0 else img.width) ≤ 255 ∧
    (if img.height = 256 then 0 else img.height) ≤ 255

instance (img : DecodedImage) : Decidable (imageDimsOk img) := by
  unfold imageDimsOk; infer_instance

/-- Every image of the sequence has representable directory bytes. -/
def dimsOk (images : List DecodedImage) : Prop :=
  ∀ img ∈ images, imageDimsOk img

instance (images : List DecodedImage) : Decidable (dimsOk images) := by
  unfold dimsOk; exact List.decidableBAll _ _

/-- Total byte size of the image blocks of an encode call:
`Σ (40 + data.length)` over the images. -/
def sumBlocks (images : List DecodedImage) : Nat :=
  (images.map (fun img => 40 + img.data.length)).sum

/-- Start offset of the `i`-th image block when the first block starts
at `offset` (the running-cursor computation of `icoLayout`). -/
def nthOffset (offset : Nat) : List DecodedImage → Nat → Nat
  | [], _ => offset
  | _ :: _, 0 => offset
  | img :: rest, i + 1 => nthOffset (offset + (40 + img.data.length)) rest i

/-- The channel permutation applied by `writePixel` within one pixel:
output channel `k` is taken from input channel `chanSwap k`
(B←R at 0/2, G and A unchanged). -/
def chanSwap (k : Nat) : Nat :=
  if k = 0 then 2 else if k = 2 then 0 else k

/-- The 16×16 all-red opaque test image: RGBA = 255,0,0,255 repeated
256 times. -/
def allRed16 : DecodedImage :=
  ⟨16, 16, 4, (List.replicate 256 [255, 0, 0, 255]).flatten⟩

/-- Error taxonomy of the decode contract (spec section 7). -/
inductive DecodeError
  | MalformedHeader
  | TruncatedData
deriving DecidableEq

/-- Modelled from the spec: one step of the decode loop of the `decode`
function of the `ico-endec` package, which the repository only declares
(`declare module "ico-endec"`). Reads directory entry `i`, checks that
the declared offset and size lie inside the buffer (else
`TruncatedData`), recovers width, height and bpp from the bitmap header
(undoing the height doubling), and applies the inverse pixel transform
(the converter is its own inverse) to the payload. -/
def decodeEntry (bytes : List Nat) (i : Nat) :
    Except DecodeError DecodedImage :=
  let dataSize := readU32LE bytes (6 + 16 * i + 8)
  let dataOffset := readU32LE bytes (6 + 16 * i + 12)
  if dataOffset + dataSize ≤ bytes.length then
    let w := readU32LE bytes (dataOffset + 4)
    let h := readU32LE bytes (dataOffset + 8) / 2
    let bpp := readU16LE bytes (dataOffset + 14) / 8
    let payload := (bytes.drop (dataOffset + 40)).take (dataSize - 40)
    .ok ⟨w, h, bpp, convertRgbaToBgr payload w h bpp⟩
  else .error .TruncatedData

/-- Modelled from the spec: the entry loop of `ico-endec`'s `decode`,
reading `n` directory entries starting at index `i`. -/
def decodeEntries (bytes : List Nat) :
    Nat → Nat → Except DecodeError (List DecodedImage)
  | _, 0 => .ok []
  | i, n + 1 => do
      let img ← decodeEntry bytes i
      let rest ← decodeEntries bytes (i + 1) n
      pure (img :: rest)

/-- Modelled from the spec: `decode` of the `ico-endec` package (only
declared in the repository). Fails with `MalformedHeader` when
reserved ≠ 0 or type ≠ 1, with `TruncatedData` when the directory or a
declared image block exceeds the buffer, and otherwise returns the
decoded images in directory order. -/
def decode (bytes : List Nat) : Except DecodeError (List DecodedImage) :=
  if readU16LE bytes 0 ≠ 0 ∨ readU16LE bytes 2 ≠ 1 then
    .error .MalformedHeader
  else
    let count := readU16LE bytes 4
    if 6 + 16 * count ≤ bytes.length then decodeEntries bytes 0 count
    else .error .TruncatedData

/-- A decoded image that satisfies the input contract of the encoder
(4 bytes per pixel, a pixel buffer matching the declared dimensions)
and whose header fields are representable on the wire. -/
def validImage (img : DecodedImage) : Prop :=
  img.bpp = 4 ∧ img.data.length = img.width * img.height * 4 ∧
    img.width < 4294967296 ∧ img.height * 2 < 4294967296

instance (img : DecodedImage) : Decidable (validImage img) := by
  unfold validImage; infer_instance

/-- The `i`-th image of an encode call (a zero image out of range). -/
def imageAt (images : List DecodedImage) (i : Nat) : DecodedImage :=
  images.getD i ⟨0, 0, 0, []⟩

/-- Every image of the sequence satisfies the encoder input contract. -/
def validImages (images : List DecodedImage) : Prop :=
  ∀ img ∈ images, validImage img

instance (images : List DecodedImage) : Decidable (validImages images) := by
  unfold validImages; exact List.decidableBAll _ _

/-! ### Byte-buffer toolkit -/

theorem getD_drop (l : List Nat) (n m : Nat) :
    (l.drop n).getD m 0 = l.getD (n + m) 0 := by
  simp [List.getD_eq_getElem?_getD, List.getElem?_drop]

theorem getD_append_left (l1 l2 : List Nat) (n : Nat) (h : n < l1.length) :
    (l1 ++ l2).getD n 0 = l1.getD n 0 := by
  simp [List.getD_eq_getElem?_getD, List.getElem?_append_left h]

theorem getD_append_right (l1 l2 : List Nat) (n : Nat)
    (h : l1.length ≤ n) :
    (l1 ++ l2).getD n 0 = l2.getD (n - l1.length) 0 := by
  simp [List.getD_eq_getElem?_getD, List.getElem?_append_right h]

theorem getD_set_self (l : List Nat) (i v : Nat) (h : i < l.length) :
    (l.set i v).getD i 0 = v := by
  simp [List.getD_eq_getElem?_getD, List.getElem?_set_self h]

theorem getD_set_ne (l : List Nat) (i j v : Nat) (h : i ≠ j) :
    (l.set i v).getD j 0 = l.getD j 0 := by
  simp [List.getD_eq_getElem?_getD, List.getElem?_set_ne h]

theorem readU16LE_eq_drop (b : List Nat) (p : Nat) :
    readU16LE b p = readU16LE (b.drop p) 0 := by
  simp [readU16LE, getD_drop]

theorem readU32LE_eq_drop (b : List Nat) (p : Nat) :
    readU32LE b p = readU32LE (b.drop p) 0 := by
  simp [readU32LE, getD_drop]

theorem readU16LE_cons (x y : Nat) (rest : List Nat) :
    readU16LE (x :: y :: rest) 0 = x + 256 * y := by
  simp [readU16LE, List.getD]

theorem readU32LE_cons (x y z w : Nat) (rest : List Nat) :
    readU32LE (x :: y :: z :: w :: rest) 0 =
      x + 256 * y + 65536 * z + 16777216 * w := by
  simp [readU32LE, List.getD]

theorem readU16LE_u16le (v : Nat) (rest : List Nat) :
    readU16LE (u16le v ++ rest) 0 = v % 65536 := by
  rw [u16le, List.cons_append, List.cons_append, List.nil_append,
    readU16LE_cons]
  omega

theorem readU32LE_u32le (v : Nat) (rest : List Nat) :
    readU32LE (u32le v ++ rest) 0 = v % 4294967296 := by
  rw [u32le]
  simp only [List.cons_append, List.nil_append, readU32LE_cons]
  omega

/-! ### Length facts -/

theorem createIcoHeader_length (c : Nat) : (createIcoHeader c).length = 6 := rfl

theorem icoDirEntryBytes_length (w h bpp s o : Nat) :
    (icoDirEntryBytes w h bpp s o).length = 16 := rfl

theorem createBitmapInfoHeader_length (w h bpp s : Nat) :
    (createBitmapInfoHeader w h bpp s).length = 40 := rfl

theorem writePixel_length (src : List Nat) (sp dp : Nat) (buf : List Nat) :
    (writePixel src sp dp buf).length = buf.length := by
  simp [writePixel]

theorem convertRow_length (src : List Nat) (bpp row endPos : Nat) :
    ∀ (n : Nat) (buf : List Nat),
      (convertRow src bpp row endPos n buf).length = buf.length := by
  intro n
  induction n with
  | zero => intro buf; rfl
  | succ c ih =>
      intro buf
      rw [convertRow, writePixel_length, ih]

theorem convertRows_length (src : List Nat) (width bpp cols endPos : Nat) :
    ∀ (n : Nat) (buf : List Nat),
      (convertRows src width bpp cols endPos n buf).length = buf.length := by
  intro n
  induction n with
  | zero => intro buf; rfl
  | succ rr ih =>
      intro buf
      rw [convertRows, convertRow_length, ih]

theorem convertRgbaToBgr_length (data : List Nat) (w h bpp : Nat) :
    (convertRgbaToBgr data w h bpp).length = data.length := by
  rw [convertRgbaToBgr, convertRows_length, List.length_replicate]

theorem icoImageBlock_length (img : DecodedImage) :
    (icoImageBlock img).length = 40 + img.data.length := by
  rw [icoImageBlock, List.length_append, createBitmapInfoHeader_length,
    convertRgbaToBgr_length]

theorem sumBlocks_cons (img : DecodedImage) (rest : List DecodedImage) :
    sumBlocks (img :: rest) = (40 + img.data.length) + sumBlocks rest := by
  simp [sumBlocks]

theorem dirLayout_flatten_length (imgs : List DecodedImage) :
    ∀ o : Nat, (dirLayout imgs o).flatten.length = 16 * imgs.length := by
  induction imgs with
  | nil => intro o; rfl
  | cons img rest ih =>
      intro o
      rw [dirLayout, List.flatten_cons, List.length_append,
        icoDirEntryBytes_length, ih, List.length_cons]
      ring

theorem blocks_flatten_length (imgs : List DecodedImage) :
    ((imgs.map icoImageBlock).flatten).length = sumBlocks imgs := by
  induction imgs with
  | nil => rfl
  | cons img rest ih =>
      rw [List.map_cons, List.flatten_cons, List.length_append, ih,
        icoImageBlock_length, sumBlocks_cons]

theorem icoLayout_length (imgs : List DecodedImage) :
    (icoLayout imgs).length = 6 + 16 * imgs.length + sumBlocks imgs := by
  rw [icoLayout, List.length_append, List.length_append,
    createIcoHeader_length, dirLayout_flatten_length,
    blocks_flatten_length]

/-! ### Offset bookkeeping -/

theorem nthOffset_zero (o : Nat) (imgs : List DecodedImage) :
    nthOffset o imgs 0 = o := by
  cases imgs <;> rfl

theorem nthOffset_eq (imgs : List DecodedImage) :
    ∀ (o i : Nat), nthOffset o imgs i = o + sumBlocks (imgs.take i) := by
  induction imgs with
  | nil =>
      intro o i
      cases i <;> simp [nthOffset, sumBlocks]
  | cons img rest ih =>
      intro o i
      cases i with
      | zero => simp [nthOffset, sumBlocks]
      | succ i =>
          rw [nthOffset, ih, List.take_succ_cons, sumBlocks_cons]
          ring

theorem nthOffset_succ (imgs : List DecodedImage) :
    ∀ (o i : Nat), i < imgs.length →
      nthOffset o imgs (i + 1) =
        nthOffset o imgs i + (40 + (imageAt imgs i).data.length) := by
  induction imgs with
  | nil => intro o i hi; simp at hi
  | cons img rest ih =>
      intro o i hi
      cases i with
      | zero =>
          show nthOffset (o + (40 + img.data.length)) rest 0 =
            nthOffset o (img :: rest) 0 +
              (40 + (imageAt (img :: rest) 0).data.length)
          rw [nthOffset_zero, nthOffset_zero]
          rfl
      | succ i =>
          show nthOffset (o + (40 + img.data.length)) rest (i + 1) =
            nthOffset (o + (40 + img.data.length)) rest i +
              (40 + (imageAt (img :: rest) (i + 1)).data.length)
          rw [ih _ i (by simpa using hi)]
          rfl

theorem nthOffset_add_le (imgs : List DecodedImage) :
    ∀ (o i : Nat), i < imgs.length →
      nthOffset o imgs i + (40 + (imageAt imgs i).data.length) ≤
        o + sumBlocks imgs := by
  induction imgs with
  | nil => intro o i hi; simp at hi
  | cons img rest ih =>
      intro o i hi
      cases i with
      | zero =>
          rw [nthOffset_zero, sumBlocks_cons]
          have : imageAt (img :: rest) 0 = img := rfl
          rw [this]
          omega
      | succ i =>
          rw [nthOffset, sumBlocks_cons]
          have h1 := ih (o + (40 + img.data.length)) i (by simpa using hi)
          have h2 : imageAt (img :: rest) (i + 1) = imageAt rest i := rfl
          rw [h2]
          omega

/-! ### Pixel converter characterization -/

theorem getD_writePixel_eq (src : List Nat) (sp dp : Nat) (buf : List Nat)
    (k : Nat) (hk : k < 4) (hb : dp + 3 < buf.length) :
    (writePixel src sp dp buf).getD (dp + k) 0 =
      src.getD (sp + chanSwap k) 0 := by
  have l0 : (buf.set dp (src.getD (sp + 2) 0)).length = buf.length := by simp
  have l1 : ((buf.set dp (src.getD (sp + 2) 0)).set (dp + 1)
      (src.getD (sp + 1) 0)).length = buf.length := by simp
  have l2 : (((buf.set dp (src.getD (sp + 2) 0)).set (dp + 1)
      (src.getD (sp + 1) 0)).set (dp + 2) (src.getD sp 0)).length =
        buf.length := by simp
  interval_cases k
  · simp only [writePixel, Nat.add_zero]
    rw [getD_set_ne _ _ _ _ (by omega), getD_set_ne _ _ _ _ (by omega),
      getD_set_ne _ _ _ _ (by omega), getD_set_self _ _ _ (by omega)]
    rfl
  · rw [writePixel, getD_set_ne _ _ _ _ (by omega),
      getD_set_ne _ _ _ _ (by omega), getD_set_self _ _ _ (by omega)]
    rfl
  · rw [writePixel, getD_set_ne _ _ _ _ (by omega),
      getD_set_self _ _ _ (by omega)]
    rfl
  · rw [writePixel, getD_set_self _ _ _ (by omega)]
    rfl

theorem getD_writePixel_out (src : List Nat) (sp dp : Nat) (buf : List Nat)
    (p : Nat) (h : p < dp ∨ dp + 4 ≤ p) :
    (writePixel src sp dp buf).getD p 0 = buf.getD p 0 := by
  rw [writePixel, getD_set_ne _ _ _ _ (by omega),
    getD_set_ne _ _ _ _ (by omega), getD_set_ne _ _ _ _ (by omega),
    getD_set_ne _ _ _ _ (by omega)]

theorem getD_convertRow (src : List Nat) (row endPos : Nat) :
    ∀ (n : Nat) (buf : List Nat), endPos - row + n * 4 ≤ buf.length →
      ∀ (c k : Nat), c < n → k < 4 →
        (convertRow src 4 row endPos n buf).getD
            (endPos - row + c * 4 + k) 0 =
          src.getD (row + c * 4 + chanSwap k) 0 := by
  intro n
  induction n with
  | zero => intro buf hb c k hc hk; omega
  | succ m ih =>
      intro buf hb c k hc hk
      rw [convertRow]
      rcases Nat.lt_succ_iff_lt_or_eq.mp hc with hlt | rfl
      · have hpos : endPos - row + c * 4 + k < endPos - row + m * 4 := by
          omega
        rw [getD_writePixel_out _ _ _ _ _ (Or.inl hpos)]
        exact ih buf (by omega) c k hlt hk
      · have : endPos - row + c * 4 + k = (endPos - row + c * 4) + k := by
          omega
        rw [this, getD_writePixel_eq _ _ _ _ k hk
          (by rw [convertRow_length]; omega)]

theorem getD_convertRow_out (src : List Nat) (row endPos : Nat) :
    ∀ (n : Nat) (buf : List Nat) (p : Nat),
      p < endPos - row ∨ endPos - row + n * 4 ≤ p →
        (convertRow src 4 row endPos n buf).getD p 0 = buf.getD p 0 := by
  intro n
  induction n with
  | zero => intro buf p hp; rfl
  | succ m ih =>
      intro buf p hp
      rw [convertRow, getD_writePixel_out _ _ _ _ _ (by omega)]
      exact ih buf p (by omega)

theorem getD_convertRows (src : List Nat) (w hh : Nat) :
    ∀ (n : Nat) (buf : List Nat), buf.length = hh * (w * 4) → n ≤ hh →
      ∀ (rr c k : Nat), rr < n → c < w → k < 4 →
        (convertRows src w 4 (w * 4) (hh * (w * 4) - w * 4) n buf).getD
            ((hh - 1 - rr) * (w * 4) + c * 4 + k) 0 =
          src.getD (rr * (w * 4) + c * 4 + chanSwap k) 0 := by
  intro n
  induction n with
  | zero => intro buf hbuf hn rr c k hr hc hk; omega
  | succ m ih =>
      intro buf hbuf hn rr c k hr hc hk
      rw [convertRows]
      have hbase : hh * (w * 4) - w * 4 - m * (w * 4) =
          (hh - 1 - m) * (w * 4) := by
        rw [Nat.sub_sub, Nat.sub_sub, Nat.sub_mul, Nat.add_mul, Nat.one_mul]
      rcases Nat.lt_succ_iff_lt_or_eq.mp hr with hlt | rfl
      · have h1 : (hh - 1 - m) * (w * 4) + w * 4 ≤
            (hh - 1 - rr) * (w * 4) := by
          have h2 := Nat.mul_le_mul_right (w * 4)
            (show hh - 1 - m + 1 ≤ hh - 1 - rr by omega)
          rwa [Nat.add_mul, Nat.one_mul] at h2
        rw [getD_convertRow_out _ _ _ _ _ _ (Or.inr (by omega))]
        exact ih buf hbuf (by omega) rr c k hlt hc hk
      · have h2 : (hh - 1 - rr) * (w * 4) + w * 4 ≤ hh * (w * 4) := by
          have h3 := Nat.mul_le_mul_right (w * 4)
            (show hh - 1 - rr + 1 ≤ hh by omega)
          rwa [Nat.add_mul, Nat.one_mul] at h3
        rw [← hbase]
        exact getD_convertRow src (rr * (w * 4)) (hh * (w * 4) - w * 4) w
          (convertRows src w 4 (w * 4) (hh * (w * 4) - w * 4) rr buf)
          (by rw [convertRows_length, hbuf]; omega)
          c k hc hk

theorem convertRgbaToBgr_getD (data : List Nat) (w hh rr c k : Nat)
    (hlen : data.length = w * hh * 4) (hr : rr < hh) (hc : c < w)
    (hk : k < 4) :
    (convertRgbaToBgr data w hh 4).getD
        ((hh - 1 - rr) * (w * 4) + c * 4 + k) 0 =
      data.getD (rr * (w * 4) + c * 4 + chanSwap k) 0 := by
  have hw : ¬ (w * 4 = 0) := by
    intro h0
    rcases Nat.mul_eq_zero.mp h0 with h1 | h1 <;> omega
  show (convertRows data w 4 (w * 4) (hh * (w * 4) - w * 4)
      (if w * 4 = 0 then 0 else hh)
      (List.replicate data.length 0)).getD
        ((hh - 1 - rr) * (w * 4) + c * 4 + k) 0 = _
  rw [if_neg hw]
  exact getD_convertRows data w hh hh (List.replicate data.length 0)
    (by rw [List.length_replicate, hlen]; ring) (le_refl hh) rr c k hr hc hk

theorem chanSwap_chanSwap (k : Nat) : chanSwap (chanSwap k) = k := by
  by_cases h0 : k = 0
  · subst h0; rfl
  by_cases h2 : k = 2
  · subst h2; rfl
  · simp [chanSwap, h0, h2]

theorem chanSwap_lt (k : Nat) (hk : k < 4) : chanSwap k < 4 := by
  by_cases h0 : k = 0
  · subst h0; norm_num [chanSwap]
  by_cases h2 : k = 2
  · subst h2; norm_num [chanSwap]
  · simpa [chanSwap, h0, h2] using hk

theorem convert_involution (data : List Nat) (w hh : Nat)
    (hlen : data.length = w * hh * 4) :
    convertRgbaToBgr (convertRgbaToBgr data w hh 4) w hh 4 = data := by
  have hlen2 : (convertRgbaToBgr data w hh 4).length = w * hh * 4 := by
    rw [convertRgbaToBgr_length, hlen]
  apply List.ext_getElem
  · rw [convertRgbaToBgr_length, convertRgbaToBgr_length]
  · intro i h1 h2
    have hi : i < w * hh * 4 := by
      rw [convertRgbaToBgr_length, convertRgbaToBgr_length, hlen] at h1
      exact h1
    have hwpos : 0 < w := by
      rcases Nat.eq_zero_or_pos w with h0 | h0
      · subst h0; simp at hi
      · exact h0
    have hw : 0 < w * 4 := by omega
    obtain ⟨rho, c, k, hrholt, hclt, hklt, hsplit⟩ :
        ∃ rho c k, rho < hh ∧ c < w ∧ k < 4 ∧
          i = rho * (w * 4) + c * 4 + k := by
      refine ⟨i / (w * 4), i % (w * 4) / 4, i % (w * 4) % 4, ?_, ?_, ?_, ?_⟩
      · rw [Nat.div_lt_iff_lt_mul hw]
        calc i < w * hh * 4 := hi
          _ = hh * (w * 4) := by ring
      · rw [Nat.div_lt_iff_lt_mul (by omega : (0:Nat) < 4)]
        have hmod : i % (w * 4) < w * 4 := Nat.mod_lt _ hw
        omega
      · exact Nat.mod_lt _ (by omega)
      · have e1 : w * 4 * (i / (w * 4)) + i % (w * 4) = i :=
          Nat.div_add_mod i (w * 4)
        have e2 : 4 * (i % (w * 4) / 4) + i % (w * 4) % 4 = i % (w * 4) :=
          Nat.div_add_mod _ 4
        calc i = w * 4 * (i / (w * 4)) + i % (w * 4) := e1.symm
          _ = w * 4 * (i / (w * 4)) +
              (4 * (i % (w * 4) / 4) + i % (w * 4) % 4) := by rw [e2]
          _ = i / (w * 4) * (w * 4) + i % (w * 4) / 4 * 4 +
              i % (w * 4) % 4 := by ring
    have hidx : i = (hh - 1 - (hh - 1 - rho)) * (w * 4) + c * 4 + k := by
      have hrr : hh - 1 - (hh - 1 - rho) = rho := by omega
      rw [hrr]
      exact hsplit
    rw [← List.getD_eq_getElem _ 0 h1, ← List.getD_eq_getElem _ 0 h2]
    calc (convertRgbaToBgr (convertRgbaToBgr data w hh 4) w hh 4).getD i 0
        = (convertRgbaToBgr (convertRgbaToBgr data w hh 4) w hh 4).getD
            ((hh - 1 - (hh - 1 - rho)) * (w * 4) + c * 4 + k) 0 := by
          rw [← hidx]
      _ = (convertRgbaToBgr data w hh 4).getD
            ((hh - 1 - rho) * (w * 4) + c * 4 + chanSwap k) 0 := by
          exact convertRgbaToBgr_getD _ w hh (hh - 1 - rho) c k hlen2
            (by omega) hclt hklt
      _ = data.getD (rho * (w * 4) + c * 4 + chanSwap (chanSwap k)) 0 := by
          exact convertRgbaToBgr_getD data w hh rho c (chanSwap k) hlen
            hrholt hclt (chanSwap_lt k hklt)
      _ = data.getD i 0 := by rw [chanSwap_chanSwap, ← hsplit]

/-! ### Container layout -/

theorem readU16LE_drop_add (b : List Nat) (p q : Nat) :
    readU16LE (b.drop p) q = readU16LE b (p + q) := by
  simp [readU16LE, getD_drop, Nat.add_assoc]

theorem readU32LE_drop_add (b : List Nat) (p q : Nat) :
    readU32LE (b.drop p) q = readU32LE b (p + q) := by
  simp [readU32LE, getD_drop, Nat.add_assoc]

theorem imageAt_eq_getElem (imgs : List DecodedImage) (i : Nat)
    (hi : i < imgs.length) : imageAt imgs i = imgs[i] := by
  simp [imageAt, List.getD_eq_getElem?_getD, List.getElem?_eq_getElem hi]

theorem dirLayout_flatten_drop (imgs : List DecodedImage) :
    ∀ (o i : Nat), i ≤ imgs.length →
      ((dirLayout imgs o).flatten).drop (16 * i) =
        (dirLayout (imgs.drop i) (nthOffset o imgs i)).flatten := by
  induction imgs with
  | nil =>
      intro o i hi
      have hz : i = 0 := by simpa using hi
      subst hz
      simp [dirLayout, nthOffset]
  | cons img rest ih =>
      intro o i hi
      cases i with
      | zero => simp [nthOffset_zero]
      | succ i =>
          rw [dirLayout, List.flatten_cons]
          have h16 : 16 * (i + 1) = 16 + 16 * i := by ring
          rw [h16, ← List.drop_drop,
            List.drop_left' (icoDirEntryBytes_length _ _ _ _ _),
            ih _ i (by simpa using hi)]
          rfl

theorem icoLayout_drop_dir (imgs : List DecodedImage) (i : Nat)
    (hi : i < imgs.length) :
    ∃ t, (icoLayout imgs).drop (6 + 16 * i) =
      icoDirEntryBytes (imageAt imgs i).width (imageAt imgs i).height
        (imageAt imgs i).bpp (40 + (imageAt imgs i).data.length)
        (nthOffset (6 + 16 * imgs.length) imgs i) ++ t := by
  rw [icoLayout, List.append_assoc, ← List.drop_drop,
    List.drop_left' (createIcoHeader_length _),
    List.drop_append_of_le_length
      (by rw [dirLayout_flatten_length]; omega),
    dirLayout_flatten_drop _ _ i (Nat.le_of_lt hi),
    List.drop_eq_getElem_cons hi, ← imageAt_eq_getElem imgs i hi,
    dirLayout, List.flatten_cons, List.append_assoc]
  exact ⟨_, rfl⟩

theorem blocks_flatten_drop (imgs : List DecodedImage) :
    ∀ i, i < imgs.length →
      ((imgs.map icoImageBlock).flatten).drop (sumBlocks (imgs.take i)) =
        icoImageBlock (imageAt imgs i) ++
          ((imgs.drop (i + 1)).map icoImageBlock).flatten := by
  induction imgs with
  | nil => intro i hi; simp at hi
  | cons img rest ih =>
      intro i hi
      cases i with
      | zero => simp [sumBlocks, imageAt]
      | succ i =>
          rw [List.take_succ_cons, sumBlocks_cons, List.map_cons,
            List.flatten_cons, ← List.drop_drop,
            List.drop_left' (icoImageBlock_length img),
            ih i (by simpa using hi)]
          rfl

theorem icoLayout_drop_block (imgs : List DecodedImage) (i : Nat)
    (hi : i < imgs.length) :
    (icoLayout imgs).drop (nthOffset (6 + 16 * imgs.length) imgs i) =
      icoImageBlock (imageAt imgs i) ++
        ((imgs.drop (i + 1)).map icoImageBlock).flatten := by
  rw [nthOffset_eq, icoLayout, ← List.drop_drop,
    List.drop_left'
      (by rw [List.length_append, createIcoHeader_length,
        dirLayout_flatten_length]),
    blocks_flatten_drop imgs i hi]

/-! ### Field reads -/

theorem icoDirEntryBytes_w_byte (w h bpp s o : Nat) (t : List Nat) :
    (icoDirEntryBytes w h bpp s o ++ t).getD 0 0 =
      (if w = 256 then 0 else w) := by
  simp [icoDirEntryBytes]

theorem icoDirEntryBytes_h_byte (w h bpp s o : Nat) (t : List Nat) :
    (icoDirEntryBytes w h bpp s o ++ t).getD 1 0 =
      (if h = 256 then 0 else h) := by
  simp [icoDirEntryBytes]

theorem icoDirEntryBytes_bpp_field (w h bpp s o : Nat) (t : List Nat) :
    readU16LE (icoDirEntryBytes w h bpp s o ++ t) 6 =
      (bpp * 8) % 65536 := by
  simp [icoDirEntryBytes, u16le, u32le, readU16LE]
  omega

theorem icoDirEntryBytes_size_field (w h bpp s o : Nat) (t : List Nat) :
    readU32LE (icoDirEntryBytes w h bpp s o ++ t) 8 =
      s % 4294967296 := by
  simp [icoDirEntryBytes, u16le, u32le, readU32LE]
  omega

theorem icoDirEntryBytes_offset_field (w h bpp s o : Nat) (t : List Nat) :
    readU32LE (icoDirEntryBytes w h bpp s o ++ t) 12 =
      o % 4294967296 := by
  simp [icoDirEntryBytes, u16le, u32le, readU32LE]
  omega

theorem icoLayout_dir_size (imgs : List DecodedImage) (i : Nat)
    (hi : i < imgs.length)
    (hfit : 40 + (imageAt imgs i).data.length < 4294967296) :
    readU32LE (icoLayout imgs) (6 + 16 * i + 8) =
      40 + (imageAt imgs i).data.length := by
  obtain ⟨t, ht⟩ := icoLayout_drop_dir imgs i hi
  rw [← readU32LE_drop_add, ht, icoDirEntryBytes_size_field,
    Nat.mod_eq_of_lt hfit]

theorem icoLayout_dir_offset (imgs : List DecodedImage) (i : Nat)
    (hi : i < imgs.length)
    (hfit : nthOffset (6 + 16 * imgs.length) imgs i < 4294967296) :
    readU32LE (icoLayout imgs) (6 + 16 * i + 12) =
      nthOffset (6 + 16 * imgs.length) imgs i := by
  obtain ⟨t, ht⟩ := icoLayout_drop_dir imgs i hi
  rw [← readU32LE_drop_add, ht, icoDirEntryBytes_offset_field,
    Nat.mod_eq_of_lt hfit]

theorem icoLayout_byte_lt6 (imgs : List DecodedImage) (n : Nat)
    (h : n < 6) :
    (icoLayout imgs).getD n 0 =
      (createIcoHeader imgs.length).getD n 0 := by
  rw [icoLayout, List.append_assoc,
    getD_append_left _ _ _ (by rw [createIcoHeader_length]; omega)]

theorem icoLayout_take6 (imgs : List DecodedImage) :
    (icoLayout imgs).take 6 =
      [0, 0, 1, 0, imgs.length % 256, imgs.length / 256 % 256] := by
  rw [icoLayout, List.append_assoc,
    List.take_left' (createIcoHeader_length _)]
  simp [createIcoHeader, u16le]

theorem icoLayout_reserved (imgs : List DecodedImage) :
    readU16LE (icoLayout imgs) 0 = 0 := by
  rw [readU16LE, icoLayout_byte_lt6 _ _ (by omega),
    icoLayout_byte_lt6 _ _ (by omega)]
  simp [createIcoHeader, u16le]

theorem icoLayout_type (imgs : List DecodedImage) :
    readU16LE (icoLayout imgs) 2 = 1 := by
  rw [readU16LE, icoLayout_byte_lt6 _ _ (by omega),
    icoLayout_byte_lt6 _ _ (by omega)]
  simp [createIcoHeader, u16le]

theorem icoLayout_count (imgs : List DecodedImage) :
    readU16LE (icoLayout imgs) 4 = imgs.length % 65536 := by
  rw [readU16LE, icoLayout_byte_lt6 _ _ (by omega),
    icoLayout_byte_lt6 _ _ (by omega)]
  simp [createIcoHeader, u16le]
  omega

theorem icoImageBlock_width_field (img : DecodedImage) (t : List Nat) :
    readU32LE (icoImageBlock img ++ t) 4 = img.width % 4294967296 := by
  simp [icoImageBlock, createBitmapInfoHeader, u16le, u32le, readU32LE]
  omega

theorem icoImageBlock_height_field (img : DecodedImage) (t : List Nat) :
    readU32LE (icoImageBlock img ++ t) 8 =
      (img.height * 2) % 4294967296 := by
  simp [icoImageBlock, createBitmapInfoHeader, u16le, u32le, readU32LE]
  omega

theorem icoImageBlock_bpp_field (img : DecodedImage) (t : List Nat) :
    readU16LE (icoImageBlock img ++ t) 14 = (img.bpp * 8) % 65536 := by
  simp [icoImageBlock, createBitmapInfoHeader, u16le, u32le, readU16LE]
  omega

theorem icoImageBlock_payload (img : DecodedImage) (t : List Nat) :
    (icoImageBlock img ++ t).drop 40 =
      convertRgbaToBgr img.data img.width img.height img.bpp ++ t := by
  rw [icoImageBlock, List.append_assoc,
    List.drop_left' (createBitmapInfoHeader_length _ _ _ _)]

theorem icoLayout_singleton (img : DecodedImage) :
    icoLayout [img] =
      createIcoHeader 1 ++
        (icoDirEntryBytes img.width img.height img.bpp
            (40 + img.data.length) 22 ++
          icoImageBlock img) := by
  show createIcoHeader 1 ++
      ((icoDirEntryBytes img.width img.height img.bpp
          (40 + img.data.length) (6 + 16 * 1) :: ([] : List (List Nat))).flatten ++
        ([icoImageBlock img] : List (List Nat)).flatten) = _
  norm_num

/-! ### Success and failure of the faithful encoder -/

theorem createIcoDirectory_eq_some (width height bpp size offset : Nat)
    (hw : (if width = 256 then 0 else width) ≤ 255)
    (hh : (if height = 256 then 0 else height) ≤ 255) :
    createIcoDirectory width height bpp size offset =
      some (icoDirEntryBytes width height bpp size offset) := by
  rw [createIcoDirectory, if_pos ⟨hw, hh⟩]

theorem icoDirectories_eq_some :
    ∀ (images : List DecodedImage), dimsOk images →
      ∀ o : Nat, icoDirectories images o = some (dirLayout images o) := by
  intro images
  induction images with
  | nil => intro h o; rfl
  | cons img rest ih =>
      intro h o
      obtain ⟨hw, hh⟩ := h img (List.mem_cons_self _ _)
      rw [icoDirectories, createIcoDirectory_eq_some _ _ _ _ _ hw hh,
        ih (fun x hx => h x (List.mem_cons_of_mem _ hx)) _]
      rfl

theorem icoDirectories_some_eq :
    ∀ (images : List DecodedImage) (o : Nat) (ds : List (List Nat)),
      icoDirectories images o = some ds → ds = dirLayout images o := by
  intro images
  induction images with
  | nil =>
      intro o ds h
      have h2 : some ([] : List (List Nat)) = some ds := h
      cases h2
      rfl
  | cons img rest ih =>
      intro o ds h
      rw [icoDirectories] at h
      cases hE : createIcoDirectory img.width img.height img.bpp
          (40 + img.data.length) o with
      | none =>
          rw [hE] at h
          have h2 : (none : Option (List (List Nat))) = some ds := h
          cases h2
      | some d =>
          rw [hE] at h
          cases hR : icoDirectories rest (o + (40 + img.data.length)) with
          | none =>
              rw [hR] at h
              have h2 : (none : Option (List (List Nat))) = some ds := h
              cases h2
          | some ds2 =>
              rw [hR] at h
              have h2 : some (d :: ds2) = some ds := h
              cases h2
              have hd : d = icoDirEntryBytes img.width img.height img.bpp
                  (40 + img.data.length) o := by
                by_cases hc : (if img.width = 256 then 0
                      else img.width) ≤ 255 ∧
                    (if img.height = 256 then 0 else img.height) ≤ 255
                · rw [createIcoDirectory, if_pos hc] at hE
                  have h3 : some (icoDirEntryBytes img.width img.height
                      img.bpp (40 + img.data.length) o) = some d := hE
                  cases h3
                  rfl
                · rw [createIcoDirectory, if_neg hc] at hE
                  cases hE
              rw [hd, ih _ _ hR]
              rfl

theorem generateIco_eq_some (images : List DecodedImage)
    (h : dimsOk images) :
    generateIco images = some (icoLayout images) := by
  rw [generateIco, icoDirectories_eq_some images h]
  rfl

theorem generateIco_some_eq (images : List DecodedImage) (out : List Nat)
    (h : generateIco images = some out) : out = icoLayout images := by
  rw [generateIco] at h
  cases hD : icoDirectories images (6 + 16 * images.length) with
  | none =>
      rw [hD] at h
      have h2 : (none : Option (List Nat)) = some out := h
      cases h2
  | some ds =>
      rw [hD] at h
      have h2 : some (createIcoHeader images.length ++ ds.flatten ++
          (images.map icoImageBlock).flatten) = some out := h
      cases h2
      rw [icoDirectories_some_eq images _ ds hD]
      rfl

theorem icoOutput_eq (images : List DecodedImage) (h : dimsOk images) :
    icoOutput images = icoLayout images := by
  rw [icoOutput, generateIco_eq_some images h]
  rfl

theorem icoDirectories_none (img : DecodedImage)
    (hbad : ¬ imageDimsOk img) :
    ∀ images : List DecodedImage, img ∈ images →
      ∀ o : Nat, icoDirectories images o = none := by
  intro images
  induction images with
  | nil => intro h o; simp at h
  | cons img0 rest ih =>
      intro hmem o
      rcases List.mem_cons.mp hmem with rfl | hmem2
      · rw [icoDirectories, createIcoDirectory,
          if_neg (by simpa [imageDimsOk] using hbad)]
        rfl
      · rw [icoDirectories]
        cases hE : createIcoDirectory img0.width img0.height img0.bpp
            (40 + img0.data.length) o with
        | none => rfl
        | some d =>
            rw [ih hmem2 _]
            rfl

theorem generateIco_none (images : List DecodedImage)
    (img : DecodedImage) (hmem : img ∈ images)
    (hbad : ¬ imageDimsOk img) :
    generateIco images = none := by
  rw [generateIco, icoDirectories_none img hbad images hmem]
  rfl

/-! ### Claim theorems -/

/-- C1: on a pixel buffer of length `width*height*4`, `convertRgbaToBgr`
with bpp 4 returns a buffer of identical length in which source row `rr`
(0-indexed from the top) appears at destination row `height-1-rr`, and
within each pixel the channel order R,G,B,A is rewritten to B,G,R,A with
the G and A bytes unchanged in value. -/
theorem claim_c1 (pixels : List Nat) (width height rr c : Nat)
    (hlen : pixels.length = width * height * 4) (hr : rr < height)
    (hc : c < width) :
    (convertRgbaToBgr pixels width height 4).length = pixels.length ∧
    (convertRgbaToBgr pixels width height 4).getD
        ((height - 1 - rr) * (width * 4) + c * 4) 0 =
      pixels.getD (rr * (width * 4) + c * 4 + 2) 0 ∧
    (convertRgbaToBgr pixels width height 4).getD
        ((height - 1 - rr) * (width * 4) + c * 4 + 1) 0 =
      pixels.getD (rr * (width * 4) + c * 4 + 1) 0 ∧
    (convertRgbaToBgr pixels width height 4).getD
        ((height - 1 - rr) * (width * 4) + c * 4 + 2) 0 =
      pixels.getD (rr * (width * 4) + c * 4) 0 ∧
    (convertRgbaToBgr pixels width height 4).getD
        ((height - 1 - rr) * (width * 4) + c * 4 + 3) 0 =
      pixels.getD (rr * (width * 4) + c * 4 + 3) 0 := by
  refine ⟨convertRgbaToBgr_length _ _ _ _, ?_, ?_, ?_, ?_⟩
  · have h := convertRgbaToBgr_getD pixels width height rr c 0 hlen hr hc
      (by omega)
    simpa [chanSwap] using h
  · have h := convertRgbaToBgr_getD pixels width height rr c 1 hlen hr hc
      (by omega)
    simpa [chanSwap] using h
  · have h := convertRgbaToBgr_getD pixels width height rr c 2 hlen hr hc
      (by omega)
    simpa [chanSwap] using h
  · have h := convertRgbaToBgr_getD pixels width height rr c 3 hlen hr hc
      (by omega)
    simpa [chanSwap] using h

/-- C1 witness: the 1×1 image [10,20,30,40] converts to [30,20,10,40]. -/
theorem claim_c1_witness :
    ([10, 20, 30, 40] : List Nat).length = 1 * 1 * 4 ∧
    (convertRgbaToBgr [10, 20, 30, 40] 1 1 4).length = 4 ∧
    (convertRgbaToBgr [10, 20, 30, 40] 1 1 4).getD 0 0 = 30 ∧
    (convertRgbaToBgr [10, 20, 30, 40] 1 1 4).getD 1 0 = 20 ∧
    (convertRgbaToBgr [10, 20, 30, 40] 1 1 4).getD 2 0 = 10 ∧
    (convertRgbaToBgr [10, 20, 30, 40] 1 1 4).getD 3 0 = 40 := by
  have h := claim_c1 [10, 20, 30, 40] 1 1 0 0 (by decide) (by decide)
    (by decide)
  refine ⟨by decide, by simpa using h.1, ?_, ?_, ?_, ?_⟩
  · simpa using h.2.1
  · simpa using h.2.2.1
  · simpa using h.2.2.2.1
  · simpa using h.2.2.2.2

/-- C10: under the precondition `pixels.length = width*height*4`, every
byte index read (`srcPos..srcPos+3`) and written (`dstPos..dstPos+3`)
by `convertRgbaToBgr` lies within `[0, pixels.length)`; the subtraction
in `dstPos` never underflows and equals `(height-1)*width*4 - row + col`
as stated. -/
theorem claim_c10 (pixels : List Nat) (width height rr c : Nat)
    (hlen : pixels.length = width * height * 4) (hr : rr < height)
    (hc : c < width) :
    (convertRgbaToBgr pixels width height 4).length = pixels.length ∧
    rr * (width * 4) ≤ height * (width * 4) - width * 4 ∧
    height * (width * 4) - width * 4 - rr * (width * 4) + c * 4 =
      (height - 1) * (width * 4) - rr * (width * 4) + c * 4 ∧
    rr * (width * 4) + c * 4 + 3 < pixels.length ∧
    height * (width * 4) - width * 4 - rr * (width * 4) + c * 4 + 3 <
      pixels.length := by
  have hlen2 : pixels.length = height * (width * 4) := by rw [hlen]; ring
  have e1 : height * (width * 4) - width * 4 =
      (height - 1) * (width * 4) := by
    rw [Nat.sub_mul, Nat.one_mul]
  have f1 : rr * (width * 4) + width * 4 ≤ height * (width * 4) := by
    have h2 := Nat.mul_le_mul_right (width * 4)
      (show rr + 1 ≤ height by omega)
    rwa [Nat.add_mul, Nat.one_mul] at h2
  have e3 : height * (width * 4) - width * 4 - rr * (width * 4) =
      (height - 1 - rr) * (width * 4) := by
    rw [Nat.sub_sub, Nat.sub_sub, Nat.sub_mul, Nat.add_mul, Nat.one_mul]
  have f2 : (height - 1 - rr) * (width * 4) + width * 4 ≤
      height * (width * 4) := by
    have h3 := Nat.mul_le_mul_right (width * 4)
      (show height - 1 - rr + 1 ≤ height by omega)
    rwa [Nat.add_mul, Nat.one_mul] at h3
  have f3 : rr * (width * 4) ≤ (height - 1) * (width * 4) :=
    Nat.mul_le_mul_right (width * 4) (by omega)
  refine ⟨convertRgbaToBgr_length _ _ _ _, by omega, by rw [e1], by omega,
    by omega⟩

/-- C10 witness: in a 2×2 image all accesses of row 1, column 1 are in
range. -/
theorem claim_c10_witness :
    ([1, 2, 3, 4, 5, 6, 7, 8, 9, 10, 11, 12, 13, 14, 15, 16] :
        List Nat).length = 2 * 2 * 4 ∧
    (convertRgbaToBgr [1, 2, 3, 4, 5, 6, 7, 8, 9, 10, 11, 12, 13, 14, 15, 16]
        2 2 4).length =
      ([1, 2, 3, 4, 5, 6, 7, 8, 9, 10, 11, 12, 13, 14, 15, 16] :
        List Nat).length ∧
    1 * (2 * 4) ≤ 2 * (2 * 4) - 2 * 4 ∧
    2 * (2 * 4) - 2 * 4 - 1 * (2 * 4) + 1 * 4 =
      (2 - 1) * (2 * 4) - 1 * (2 * 4) + 1 * 4 ∧
    1 * (2 * 4) + 1 * 4 + 3 <
      ([1, 2, 3, 4, 5, 6, 7, 8, 9, 10, 11, 12, 13, 14, 15, 16] :
        List Nat).length ∧
    2 * (2 * 4) - 2 * 4 - 1 * (2 * 4) + 1 * 4 + 3 <
      ([1, 2, 3, 4, 5, 6, 7, 8, 9, 10, 11, 12, 13, 14, 15, 16] :
        List Nat).length := by
  have h := claim_c10 [1, 2, 3, 4, 5, 6, 7, 8, 9, 10, 11, 12, 13, 14, 15, 16]
    2 2 1 1 (by decide) (by decide) (by decide)
  exact ⟨by decide, h.1, h.2.1, h.2.2.1, h.2.2.2.1, h.2.2.2.2⟩

/-- C8: the pixel-format converter is an involution: applying
`convertRgbaToBgr` twice to any buffer of length `width*height*4`
returns the original buffer byte for byte. -/
theorem claim_c8 (pixels : List Nat) (width height : Nat)
    (hlen : pixels.length = width * height * 4) :
    convertRgbaToBgr (convertRgbaToBgr pixels width height 4)
      width height 4 = pixels :=
  convert_involution pixels width height hlen

/-- C8 witness: converting a concrete 2×2 buffer twice is the
identity. -/
theorem claim_c8_witness :
    ([1, 2, 3, 4, 5, 6, 7, 8, 9, 10, 11, 12, 13, 14, 15, 16] :
        List Nat).length = 2 * 2 * 4 ∧
    convertRgbaToBgr
        (convertRgbaToBgr
          [1, 2, 3, 4, 5, 6, 7, 8, 9, 10, 11, 12, 13, 14, 15, 16] 2 2 4)
        2 2 4 =
      [1, 2, 3, 4, 5, 6, 7, 8, 9, 10, 11, 12, 13, 14, 15, 16] :=
  ⟨by decide,
    claim_c8 [1, 2, 3, 4, 5, 6, 7, 8, 9, 10, 11, 12, 13, 14, 15, 16] 2 2
      (by decide)⟩

/-- C4: whenever the encoder produces a container, its first six bytes
are reserved = 0, type = 1 and the image count, all little-endian
uint16. -/
theorem claim_c4 (images : List DecodedImage) (out : List Nat)
    (hcount : images.length < 65536)
    (hout : generateIco images = some out) :
    out.take 6 =
      [0, 0, 1, 0, images.length % 256, images.length / 256 % 256] ∧
    readU16LE out 0 = 0 ∧
    readU16LE out 2 = 1 ∧
    readU16LE out 4 = images.length := by
  obtain rfl := generateIco_some_eq images out hout
  refine ⟨icoLayout_take6 images, icoLayout_reserved images,
    icoLayout_type images, ?_⟩
  rw [icoLayout_count, Nat.mod_eq_of_lt hcount]

/-- C4 witness: header bytes of a concrete single-image encode. -/
theorem claim_c4_witness :
    ([⟨1, 1, 4, [1, 2, 3, 4]⟩] : List DecodedImage).length < 65536 ∧
    generateIco [⟨1, 1, 4, [1, 2, 3, 4]⟩] =
      some (icoOutput [⟨1, 1, 4, [1, 2, 3, 4]⟩]) ∧
    (icoOutput [⟨1, 1, 4, [1, 2, 3, 4]⟩]).take 6 = [0, 0, 1, 0, 1, 0] ∧
    readU16LE (icoOutput [⟨1, 1, 4, [1, 2, 3, 4]⟩]) 0 = 0 ∧
    readU16LE (icoOutput [⟨1, 1, 4, [1, 2, 3, 4]⟩]) 2 = 1 ∧
    readU16LE (icoOutput [⟨1, 1, 4, [1, 2, 3, 4]⟩]) 4 = 1 := by
  have h := claim_c4 [⟨1, 1, 4, [1, 2, 3, 4]⟩]
    (icoOutput [⟨1, 1, 4, [1, 2, 3, 4]⟩]) (by decide) (by decide)
  exact ⟨by decide, by decide, by simpa using h.1, h.2.1, h.2.2.1,
    by simpa using h.2.2.2⟩

/-- C5 counterexample: a logical width of 300 (above 255 and not 256)
is not emitted as its own value in the single-byte field: the
single-byte store rejects it (`Buffer.writeUInt8` throws
ERR_OUT_OF_RANGE) and no directory entry is emitted at all. -/
theorem claim_c5_cex :
    createIcoDirectory 300 16 4 1000 22 = none := by decide

/-- C5 (amended): dimension 256 is emitted as byte 0 and dimension 255
as byte 255; in general any dimension not equal to 256 and at most 255
is emitted as its own value in the single-byte field (dimensions above
255 other than 256 are rejected by the single-byte store, which
throws, so no entry is emitted — see C6). -/
theorem claim_c5 (width height bpp size offset : Nat)
    (hw : width ≤ 256) (hh : height ≤ 256) :
    createIcoDirectory width height bpp size offset =
      some (icoDirEntryBytes width height bpp size offset) ∧
    (icoDirEntryBytes width height bpp size offset).getD 0 0 =
      (if width = 256 then 0 else width) ∧
    (icoDirEntryBytes width height bpp size offset).getD 1 0 =
      (if height = 256 then 0 else height) := by
  refine ⟨createIcoDirectory_eq_some _ _ _ _ _
    (by split_ifs <;> omega) (by split_ifs <;> omega), ?_, ?_⟩
  · have h := icoDirEntryBytes_w_byte width height bpp size offset []
    rw [List.append_nil] at h
    exact h
  · have h := icoDirEntryBytes_h_byte width height bpp size offset []
    rw [List.append_nil] at h
    exact h

/-- C5 witness: width 256 is emitted as 0 and height 255 as 255. -/
theorem claim_c5_witness :
    (256 : Nat) ≤ 256 ∧ (255 : Nat) ≤ 256 ∧
    createIcoDirectory 256 255 4 1000 22 =
      some (icoDirEntryBytes 256 255 4 1000 22) ∧
    (icoDirEntryBytes 256 255 4 1000 22).getD 0 0 = 0 ∧
    (icoDirEntryBytes 256 255 4 1000 22).getD 1 0 = 255 := by
  have h := claim_c5 256 255 4 1000 22 (by decide) (by decide)
  exact ⟨by decide, by decide, h.1, by simpa using h.2.1,
    by simpa using h.2.2⟩

/-- C6 counterexample: encoding a 300-wide image is not a silent
truncation that still produces a container: the encoder fails (the
single-byte directory store throws) and no container is produced. -/
theorem claim_c6_cex :
    generateIco [⟨300, 1, 4, [1, 2, 3, 4]⟩] = none := by decide

/-- C6 (corrected): for every image in the sequence whose width or
height is above 255 and not equal to 256, the reference encoder does
fail: the single-byte directory store rejects the value (Node's
`Buffer.writeUInt8` throws ERR_OUT_OF_RANGE), so no container is
produced; the silent truncation described in the specification does
not occur. -/
theorem claim_c6 (images : List DecodedImage) (img : DecodedImage)
    (hmem : img ∈ images)
    (hdim : (255 < img.width ∧ img.width ≠ 256) ∨
      (255 < img.height ∧ img.height ≠ 256)) :
    generateIco images = none := by
  apply generateIco_none images img hmem
  intro hok
  rw [imageDimsOk] at hok
  obtain ⟨hw, hh⟩ := hok
  rcases hdim with ⟨h1, h2⟩ | ⟨h1, h2⟩
  · rw [if_neg h2] at hw
    omega
  · rw [if_neg h2] at hh
    omega

/-- C6 witness: a sequence containing a 257-wide image encodes to
nothing. -/
theorem claim_c6_witness :
    (⟨257, 2, 4, []⟩ : DecodedImage) ∈
      ([⟨1, 1, 4, [1, 2, 3, 4]⟩, ⟨257, 2, 4, []⟩] :
        List DecodedImage) ∧
    ((255 < (257 : Nat) ∧ (257 : Nat) ≠ 256) ∨
      (255 < (2 : Nat) ∧ (2 : Nat) ≠ 256)) ∧
    generateIco [⟨1, 1, 4, [1, 2, 3, 4]⟩, ⟨257, 2, 4, []⟩] = none := by
  refine ⟨by decide, Or.inl ⟨by decide, by decide⟩, ?_⟩
  exact claim_c6 [⟨1, 1, 4, [1, 2, 3, 4]⟩, ⟨257, 2, 4, []⟩]
    ⟨257, 2, 4, []⟩ (by decide) (Or.inl ⟨by decide, by decide⟩)

/-- C7 counterexample: encoding the empty image sequence does not fail
and does produce output: the successful 6-byte container
[0,0,1,0,0,0]. -/
theorem claim_c7_cex : generateIco [] = some [0, 0, 1, 0, 0, 0] := by
  decide

/-- C7 (amended): encoding an empty image sequence does not fail with
any error; it silently produces a 6-byte header-only container with
count 0 and no directory entries or image blocks. -/
theorem claim_c7 :
    generateIco [] = some (createIcoHeader 0) ∧
    (icoOutput []).length = 6 ∧
    readU16LE (icoOutput []) 4 = 0 := by
  refine ⟨by decide, by decide, by decide⟩

/-- C2: encoding the single 16×16 all-red opaque image succeeds and
yields count 1,
directory width/height bytes 16, bitsPerPixel 32, dataOffset 22, a
bitmap header at offset 22 whose height field is 32 (twice the logical
height), and a pixel payload starting with B,G,R,A = 0,0,255,255. -/
theorem claim_c2 :
    generateIco [allRed16] = some (icoOutput [allRed16]) ∧
    readU16LE (icoOutput [allRed16]) 4 = 1 ∧
    (icoOutput [allRed16]).getD 6 0 = 16 ∧
    (icoOutput [allRed16]).getD 7 0 = 16 ∧
    readU16LE (icoOutput [allRed16]) 12 = 32 ∧
    readU32LE (icoOutput [allRed16]) 18 = 22 ∧
    readU32LE (icoOutput [allRed16]) 30 = 32 ∧
    (icoOutput [allRed16]).getD 62 0 = 0 ∧
    (icoOutput [allRed16]).getD 63 0 = 0 ∧
    (icoOutput [allRed16]).getD 64 0 = 255 ∧
    (icoOutput [allRed16]).getD 65 0 = 255 := by
  have hok : dimsOk [allRed16] := by decide
  rw [icoOutput_eq [allRed16] hok, generateIco_eq_some [allRed16] hok]
  have hdrop6 : (icoLayout [allRed16]).drop 6 =
      icoDirEntryBytes allRed16.width allRed16.height allRed16.bpp
        (40 + allRed16.data.length) 22 ++ icoImageBlock allRed16 := by
    rw [icoLayout_singleton, List.drop_left' (createIcoHeader_length _)]
  have hdrop22 : (icoLayout [allRed16]).drop 22 =
      icoImageBlock allRed16 ++ [] := by
    rw [icoLayout_singleton, ← List.append_assoc,
      List.drop_left' (by simp [createIcoHeader_length,
        icoDirEntryBytes_length] : (createIcoHeader 1 ++
          icoDirEntryBytes allRed16.width allRed16.height allRed16.bpp
            (40 + allRed16.data.length) 22).length = 22),
      List.append_nil]
  have hdrop62 : (icoLayout [allRed16]).drop 62 =
      convertRgbaToBgr allRed16.data allRed16.width allRed16.height
        allRed16.bpp ++ [] := by
    rw [show (62 : Nat) = 22 + 40 from rfl, ← List.drop_drop, hdrop22,
      icoImageBlock_payload]
  have hlenRed : allRed16.data.length = 16 * 16 * 4 := by decide
  have hpayload : ∀ k : Nat, k < 4 →
      (icoLayout [allRed16]).getD (62 + k) 0 =
        allRed16.data.getD (960 + chanSwap k) 0 := by
    intro k hk
    rw [← getD_drop, hdrop62, List.append_nil]
    have h := convertRgbaToBgr_getD allRed16.data 16 16 15 0 k hlenRed
      (by omega) (by omega) hk
    simpa using h
  refine ⟨rfl, ?_, ?_, ?_, ?_, ?_, ?_, ?_, ?_, ?_, ?_⟩
  · rw [icoLayout_count]; decide
  · rw [show (6 : Nat) = 6 + 0 from rfl, ← getD_drop, hdrop6,
      icoDirEntryBytes_w_byte]
    decide
  · rw [show (7 : Nat) = 6 + 1 from rfl, ← getD_drop, hdrop6,
      icoDirEntryBytes_h_byte]
    decide
  · rw [show (12 : Nat) = 6 + 6 from rfl, ← readU16LE_drop_add, hdrop6,
      icoDirEntryBytes_bpp_field]
    decide
  · rw [show (18 : Nat) = 6 + 12 from rfl, ← readU32LE_drop_add, hdrop6,
      icoDirEntryBytes_offset_field]
  · rw [show (30 : Nat) = 22 + 8 from rfl, ← readU32LE_drop_add, hdrop22,
      icoImageBlock_height_field]
    decide
  · have h := hpayload 0 (by omega)
    rw [show (62 : Nat) = 62 + 0 from rfl, h]
    decide
  · have h := hpayload 1 (by omega)
    rw [show (63 : Nat) = 62 + 1 from rfl, h]
    decide
  · have h := hpayload 2 (by omega)
    rw [show (64 : Nat) = 62 + 2 from rfl, h]
    decide
  · have h := hpayload 3 (by omega)
    rw [show (65 : Nat) = 62 + 3 from rfl, h]
    decide

theorem sumBlocks_append (a b : List DecodedImage) :
    sumBlocks (a ++ b) = sumBlocks a + sumBlocks b := by
  simp [sumBlocks]

theorem sumBlocks_take_le (imgs : List DecodedImage) (i : Nat) :
    sumBlocks (imgs.take i) ≤ sumBlocks imgs :=
  calc sumBlocks (imgs.take i) ≤
      sumBlocks (imgs.take i) + sumBlocks (imgs.drop i) :=
        Nat.le_add_right _ _
    _ = sumBlocks imgs := by
        rw [← sumBlocks_append, List.take_append_drop]

/-- C3: in every produced container, the first directory entry's
dataOffset is `6 + 16*N`, every entry's dataSize is `40 +` that
image's pixel-data length, and each entry's dataOffset plus dataSize
equals the next entry's dataOffset: image blocks are contiguous, in
input order, without gaps or overlaps. -/
theorem claim_c3 (images : List DecodedImage) (out : List Nat)
    (i j : Nat) (hout : generateIco images = some out)
    (hfit : 6 + 16 * images.length + sumBlocks images < 4294967296)
    (hne : images ≠ []) (hj : j < images.length) :
    readU32LE out 18 = 6 + 16 * images.length ∧
    readU32LE out (6 + 16 * j + 8) =
      40 + (imageAt images j).data.length ∧
    (i + 1 < images.length →
      readU32LE out (6 + 16 * i + 12) +
          readU32LE out (6 + 16 * i + 8) =
        readU32LE out (6 + 16 * (i + 1) + 12)) := by
  obtain rfl := generateIco_some_eq images out hout
  have hpos : 0 < images.length := List.length_pos.mpr hne
  have hofffit : ∀ m : Nat, m < images.length →
      nthOffset (6 + 16 * images.length) images m < 4294967296 := by
    intro m hm
    have h1 := nthOffset_eq images (6 + 16 * images.length) m
    have h2 := sumBlocks_take_le images m
    omega
  have hsizefit : ∀ m : Nat, m < images.length →
      40 + (imageAt images m).data.length < 4294967296 := by
    intro m hm
    have h1 := nthOffset_add_le images (6 + 16 * images.length) m hm
    omega
  refine ⟨?_, ?_, ?_⟩
  · have h0 := icoLayout_dir_offset images 0 (by omega)
      (hofffit 0 (by omega))
    rw [nthOffset_zero] at h0
    simpa using h0
  · exact icoLayout_dir_size images j hj (hsizefit j hj)
  · intro hij
    have h1 := icoLayout_dir_offset images i (by omega)
      (hofffit i (by omega))
    have h2 := icoLayout_dir_size images i (by omega)
      (hsizefit i (by omega))
    have h3 := icoLayout_dir_offset images (i + 1) hij
      (hofffit (i + 1) hij)
    have h4 := nthOffset_succ images (6 + 16 * images.length) i (by omega)
    rw [h1, h2, h3, h4]

/-- C3 witness: a concrete two-image encode has first offset 38,
entry sizes 44, and contiguous blocks (38 + 44 = 82). -/
theorem claim_c3_witness :
    generateIco [⟨1, 1, 4, [1, 2, 3, 4]⟩, ⟨1, 1, 4, [5, 6, 7, 8]⟩] =
      some (icoOutput [⟨1, 1, 4, [1, 2, 3, 4]⟩,
        ⟨1, 1, 4, [5, 6, 7, 8]⟩]) ∧
    6 + 16 * ([⟨1, 1, 4, [1, 2, 3, 4]⟩, ⟨1, 1, 4, [5, 6, 7, 8]⟩] :
        List DecodedImage).length +
      sumBlocks [⟨1, 1, 4, [1, 2, 3, 4]⟩, ⟨1, 1, 4, [5, 6, 7, 8]⟩] <
        4294967296 ∧
    ([⟨1, 1, 4, [1, 2, 3, 4]⟩, ⟨1, 1, 4, [5, 6, 7, 8]⟩] :
      List DecodedImage) ≠ [] ∧
    readU32LE (icoOutput [⟨1, 1, 4, [1, 2, 3, 4]⟩,
      ⟨1, 1, 4, [5, 6, 7, 8]⟩]) 18 = 38 ∧
    readU32LE (icoOutput [⟨1, 1, 4, [1, 2, 3, 4]⟩,
      ⟨1, 1, 4, [5, 6, 7, 8]⟩]) (6 + 16 * 1 + 8) = 44 ∧
    readU32LE (icoOutput [⟨1, 1, 4, [1, 2, 3, 4]⟩,
        ⟨1, 1, 4, [5, 6, 7, 8]⟩]) (6 + 16 * 0 + 12) +
      readU32LE (icoOutput [⟨1, 1, 4, [1, 2, 3, 4]⟩,
        ⟨1, 1, 4, [5, 6, 7, 8]⟩]) (6 + 16 * 0 + 8) =
      readU32LE (icoOutput [⟨1, 1, 4, [1, 2, 3, 4]⟩,
        ⟨1, 1, 4, [5, 6, 7, 8]⟩]) (6 + 16 * (0 + 1) + 12) := by
  have h := claim_c3 [⟨1, 1, 4, [1, 2, 3, 4]⟩, ⟨1, 1, 4, [5, 6, 7, 8]⟩]
    (icoOutput [⟨1, 1, 4, [1, 2, 3, 4]⟩, ⟨1, 1, 4, [5, 6, 7, 8]⟩]) 0 1
    (by decide) (by decide) (by decide) (by decide)
  refine ⟨by decide, by decide, by decide, by simpa using h.1, ?_,
    h.2.2 (by decide)⟩
  have h2 := h.2.1
  simpa using h2

/-! ### Decode roundtrip -/

theorem nthOffset_lt_of_fit (images : List DecodedImage)
    (hfit : 6 + 16 * images.length + sumBlocks images < 4294967296)
    (m : Nat) :
    nthOffset (6 + 16 * images.length) images m < 4294967296 := by
  have h1 := nthOffset_eq images (6 + 16 * images.length) m
  have h2 := sumBlocks_take_le images m
  omega

theorem entrySize_lt_of_fit (images : List DecodedImage)
    (hfit : 6 + 16 * images.length + sumBlocks images < 4294967296)
    (m : Nat) (hm : m < images.length) :
    40 + (imageAt images m).data.length < 4294967296 := by
  have h1 := nthOffset_add_le images (6 + 16 * images.length) m hm
  omega

theorem decodeEntry_encode (images : List DecodedImage)
    (hval : validImages images)
    (hfit : 6 + 16 * images.length + sumBlocks images < 4294967296)
    (i : Nat) (hi : i < images.length) :
    decodeEntry (icoLayout images) i = .ok (imageAt images i) := by
  have hmem : imageAt images i ∈ images := by
    rw [imageAt_eq_getElem images i hi]
    exact List.getElem_mem _
  obtain ⟨hbpp, hdlen, hwlt, hhlt⟩ := hval (imageAt images i) hmem
  have hsize := icoLayout_dir_size images i hi
    (entrySize_lt_of_fit images hfit i hi)
  have hoff := icoLayout_dir_offset images i hi
    (nthOffset_lt_of_fit images hfit i)
  have hblock := icoLayout_drop_block images i hi
  have hle := nthOffset_add_le images (6 + 16 * images.length) i hi
  have hlen := icoLayout_length images
  have hw4 : readU32LE (icoLayout images)
      (nthOffset (6 + 16 * images.length) images i + 4) =
        (imageAt images i).width := by
    rw [← readU32LE_drop_add, hblock, icoImageBlock_width_field,
      Nat.mod_eq_of_lt hwlt]
  have hh8 : readU32LE (icoLayout images)
      (nthOffset (6 + 16 * images.length) images i + 8) =
        (imageAt images i).height * 2 := by
    rw [← readU32LE_drop_add, hblock, icoImageBlock_height_field,
      Nat.mod_eq_of_lt hhlt]
  have hb14 : readU16LE (icoLayout images)
      (nthOffset (6 + 16 * images.length) images i + 14) = 32 := by
    rw [← readU16LE_drop_add, hblock, icoImageBlock_bpp_field, hbpp]
  have hpay : ((icoLayout images).drop
        (nthOffset (6 + 16 * images.length) images i + 40)).take
          (40 + (imageAt images i).data.length - 40) =
      convertRgbaToBgr (imageAt images i).data (imageAt images i).width
        (imageAt images i).height (imageAt images i).bpp := by
    rw [← List.drop_drop, hblock, icoImageBlock_payload,
      show 40 + (imageAt images i).data.length - 40 =
        (imageAt images i).data.length by omega,
      List.take_left' (convertRgbaToBgr_length _ _ _ _)]
  simp only [decodeEntry]
  rw [hsize, hoff, if_pos (by rw [hlen]; omega), hw4, hh8, hb14, hpay]
  rw [show (imageAt images i).height * 2 / 2 = (imageAt images i).height
      by omega,
    show (32 : Nat) / 8 = 4 by norm_num, hbpp,
    convert_involution _ _ _ hdlen]
  rw [← hbpp]

theorem decodeEntries_encode (images : List DecodedImage)
    (hval : validImages images)
    (hfit : 6 + 16 * images.length + sumBlocks images < 4294967296) :
    ∀ (suf pre : List DecodedImage), images = pre ++ suf →
      decodeEntries (icoLayout images) pre.length suf.length =
        .ok suf := by
  intro suf
  induction suf with
  | nil => intro pre h; rfl
  | cons img rest ih =>
      intro pre h
      have hi : pre.length < images.length := by
        rw [h, List.length_append, List.length_cons]
        omega
      have himg : imageAt images pre.length = img := by
        rw [imageAt_eq_getElem images pre.length hi]
        subst h
        rw [List.getElem_append_right (Nat.le_refl _)]
        simp
      have hrest := ih (pre ++ [img])
        (by rw [h, List.append_assoc]; rfl)
      rw [List.length_append, List.length_cons, List.length_nil] at hrest
      rw [List.length_cons, decodeEntries]
      rw [decodeEntry_encode images hval hfit pre.length hi, himg, hrest]
      rfl

theorem decode_encode (images : List DecodedImage)
    (hval : validImages images) (hcount : images.length < 65536)
    (hfit : 6 + 16 * images.length + sumBlocks images < 4294967296) :
    decode (icoLayout images) = .ok images := by
  have hres := icoLayout_reserved images
  have htyp := icoLayout_type images
  have hcnt : readU16LE (icoLayout images) 4 = images.length := by
    rw [icoLayout_count, Nat.mod_eq_of_lt hcount]
  have hlen := icoLayout_length images
  rw [decode, hres, htyp, hcnt, if_neg (by simp),
    if_pos (by omega)]
  exact decodeEntries_encode images hval hfit images [] rfl

theorem decode_malformed (bytes : List Nat)
    (hbad : readU16LE bytes 0 ≠ 0 ∨ readU16LE bytes 2 ≠ 1) :
    decode bytes = .error .MalformedHeader := by
  rw [decode, if_pos hbad]

theorem decodeEntry_error_eq (bytes : List Nat) (i : Nat)
    (e : DecodeError) (h : decodeEntry bytes i = .error e) :
    e = .TruncatedData := by
  rw [decodeEntry] at h
  split at h
  · cases h
  · cases h
    rfl

theorem decodeEntry_truncated (bytes : List Nat) (i : Nat)
    (hbad : bytes.length < readU32LE bytes (6 + 16 * i + 12) +
      readU32LE bytes (6 + 16 * i + 8)) :
    decodeEntry bytes i = .error .TruncatedData := by
  rw [decodeEntry, if_neg (by omega)]

theorem decodeEntries_truncated (bytes : List Nat) :
    ∀ (n i j : Nat), j < n →
      bytes.length < readU32LE bytes (6 + 16 * (i + j) + 12) +
        readU32LE bytes (6 + 16 * (i + j) + 8) →
      decodeEntries bytes i n = .error .TruncatedData := by
  intro n
  induction n with
  | zero => intro i j hj hbad; omega
  | succ m ih =>
      intro i j hj hbad
      rw [decodeEntries]
      cases j with
      | zero =>
          rw [decodeEntry_truncated bytes i (by simpa using hbad)]
          rfl
      | succ j =>
          cases hE : decodeEntry bytes i with
          | error e =>
              rw [decodeEntry_error_eq bytes i e hE]
              rfl
          | ok img =>
              have hrec := ih (i + 1) j (by omega)
                (by
                  have he : i + 1 + j = i + (j + 1) := by omega
                  rw [he]
                  exact hbad)
              rw [hrec]
              rfl

theorem decode_truncated (bytes : List Nat) (j : Nat)
    (h0 : readU16LE bytes 0 = 0) (h1 : readU16LE bytes 2 = 1)
    (hj : j < readU16LE bytes 4)
    (hbad : bytes.length < readU32LE bytes (6 + 16 * j + 12) +
      readU32LE bytes (6 + 16 * j + 8)) :
    decode bytes = .error .TruncatedData := by
  rw [decode, h0, h1, if_neg (by simp)]
  by_cases hdir : 6 + 16 * readU16LE bytes 4 ≤ bytes.length
  · rw [if_pos hdir]
    exact decodeEntries_truncated bytes (readU16LE bytes 4) 0 j hj
      (by simpa using hbad)
  · rw [if_neg hdir]

/-- C9: decoding a produced container returns the original image
sequence (order, dimensions and pixel bytes), for every valid image
sequence; decode fails with MalformedHeader when reserved ≠ 0 or
type ≠ 1, and with TruncatedData when a declared entry offset or size
exceeds the buffer length. -/
theorem claim_c9 (images : List DecodedImage)
    (out bytes1 bytes2 : List Nat) (j : Nat)
    (hval : validImages images)
    (hout : generateIco images = some out)
    (hcount : images.length < 65536)
    (hfit : 6 + 16 * images.length + sumBlocks images < 4294967296)
    (hbad : readU16LE bytes1 0 ≠ 0 ∨ readU16LE bytes1 2 ≠ 1)
    (h0 : readU16LE bytes2 0 = 0) (h1 : readU16LE bytes2 2 = 1)
    (hj : j < readU16LE bytes2 4)
    (htr : bytes2.length < readU32LE bytes2 (6 + 16 * j + 12) +
      readU32LE bytes2 (6 + 16 * j + 8)) :
    decode out = .ok images ∧
    decode bytes1 = .error .MalformedHeader ∧
    decode bytes2 = .error .TruncatedData := by
  obtain rfl := generateIco_some_eq images out hout
  exact ⟨decode_encode images hval hcount hfit,
    decode_malformed bytes1 hbad,
    decode_truncated bytes2 j h0 h1 hj htr⟩

/-- C9 witness: a concrete 1×1 image round-trips; a buffer with type 2
is MalformedHeader; a 22-byte container whose entry declares size 255
is TruncatedData. -/
theorem claim_c9_witness :
    validImages [⟨1, 1, 4, [1, 2, 3, 4]⟩] ∧
    generateIco [⟨1, 1, 4, [1, 2, 3, 4]⟩] =
      some (icoOutput [⟨1, 1, 4, [1, 2, 3, 4]⟩]) ∧
    ([⟨1, 1, 4, [1, 2, 3, 4]⟩] : List DecodedImage).length < 65536 ∧
    6 + 16 * ([⟨1, 1, 4, [1, 2, 3, 4]⟩] : List DecodedImage).length +
      sumBlocks [⟨1, 1, 4, [1, 2, 3, 4]⟩] < 4294967296 ∧
    (readU16LE [0, 0, 2] 0 ≠ 0 ∨ readU16LE [0, 0, 2] 2 ≠ 1) ∧
    readU16LE
      [0, 0, 1, 0, 1, 0, 0, 0, 0, 0, 0, 0, 0, 0, 255, 0, 0, 0, 0, 0, 0, 0]
      0 = 0 ∧
    decode (icoOutput [⟨1, 1, 4, [1, 2, 3, 4]⟩]) =
      .ok [⟨1, 1, 4, [1, 2, 3, 4]⟩] ∧
    decode [0, 0, 2] = .error .MalformedHeader ∧
    decode
      [0, 0, 1, 0, 1, 0, 0, 0, 0, 0, 0, 0, 0, 0, 255, 0, 0, 0, 0, 0, 0, 0]
      = .error .TruncatedData := by
  have h := claim_c9 [⟨1, 1, 4, [1, 2, 3, 4]⟩]
    (icoOutput [⟨1, 1, 4, [1, 2, 3, 4]⟩]) [0, 0, 2]
    [0, 0, 1, 0, 1, 0, 0, 0, 0, 0, 0, 0, 0, 0, 255, 0, 0, 0, 0, 0, 0, 0]
    0 (by decide) (by decide) (by decide) (by decide) (by decide)
    (by decide) (by decide) (by decide) (by decide)
  exact ⟨by decide, by decide, by decide, by decide, by decide,
    by decide, h.1, h.2.1, h.2.2⟩
